import Mathlib

/-!
Verification development for the `carterbs/lifting` content-generation
scripts (`scripts/generate-tts.py`, `scripts/generate-tts-meditation.py`,
`scripts/generate-icon.py`).

Strings are modelled as `List Char` internally (with `String.mk` / `.data`
at the boundaries), characters via their Unicode code points.  The Python
regex character classes used by the scripts are ASCII classes
(`[a-z0-9]`, `\w`, `\s`), modelled by decidable predicates on code points.
Python's `str.lower()` is modelled by `Char.toLower` (ASCII lowering; the
scripts only ever feed ASCII display names and descriptions through it,
apart from curly apostrophes, which are fixed points of lowering).
-/

namespace Lifting

/-- `[a-z0-9]`, the character class of `slugify`'s keep-set. -/
def isAlnumC (c : Char) : Bool :=
  (97 ≤ c.toNat && c.toNat ≤ 122) || (48 ≤ c.toNat && c.toNat ≤ 57)

/-- The apostrophe class `['’‘']` of `slugify`
(straight apostrophe U+0027 — listed twice in the source — and the two
curly variants U+2019, U+2018). -/
def isAposC (c : Char) : Bool :=
  c.toNat = 39 || c.toNat = 8217 || c.toNat = 8216

/-- Python regex word character `\w` (ASCII part), for `\b` boundaries. -/
def isWordC (c : Char) : Bool :=
  (97 ≤ c.toNat && c.toNat ≤ 122) || (65 ≤ c.toNat && c.toNat ≤ 90) ||
  (48 ≤ c.toNat && c.toNat ≤ 57) || c.toNat = 95

/-- Python regex whitespace `\s` (ASCII part): space, TAB, LF, VT, FF, CR. -/
def isSpaceC (c : Char) : Bool :=
  c.toNat = 32 || (9 ≤ c.toNat && c.toNat ≤ 13)

/-- `name.lower()`. -/
def lowerL (l : List Char) : List Char := l.map Char.toLower

/-- `re.sub(r"['’‘']", "", slug)` — delete every apostrophe. -/
def removeApos (l : List Char) : List Char := l.filter (fun c => !isAposC c)

/-- `re.sub(r"[^a-z0-9]+", "-", slug)`: each maximal run of characters
outside `[a-z0-9]` becomes a single hyphen.  The flag records whether we
are inside such a run (its first character already emitted the hyphen). -/
def replaceRunsAux : Bool → List Char → List Char
  | _, [] => []
  | inRun, c :: rest =>
    if isAlnumC c then c :: replaceRunsAux false rest
    else if inRun then replaceRunsAux true rest
    else '-' :: replaceRunsAux true rest

def replaceRuns (l : List Char) : List Char := replaceRunsAux false l

/-- `re.sub(r"-+", "-", slug)`: collapse consecutive hyphens. -/
def collapseHAux : Bool → List Char → List Char
  | _, [] => []
  | inRun, c :: rest =>
    if c == '-' then
      if inRun then collapseHAux true rest
      else '-' :: collapseHAux true rest
    else c :: collapseHAux false rest

def collapseH (l : List Char) : List Char := collapseHAux false l

/-- Remove a maximal trailing run of hyphens (the right half of
`slug.strip("-")`). -/
def dropTrailingH : List Char → List Char
  | [] => []
  | c :: rest =>
    match dropTrailingH rest with
    | [] => if c == '-' then [] else [c]
    | r => c :: r

/-- `slug.strip("-")`: remove leading and trailing hyphens. -/
def stripHyphens (l : List Char) : List Char :=
  dropTrailingH (l.dropWhile (· == '-'))

/-- `slugify` from `scripts/generate-tts.py` on character lists:
lowercase, delete apostrophes, replace non-`[a-z0-9]` runs with `-`,
collapse hyphen runs, strip outer hyphens. -/
def slugifyL (l : List Char) : List Char :=
  stripHyphens (collapseH (replaceRuns (removeApos (lowerL l))))

/-- `slugify(name)` on strings. -/
def slugify (s : String) : String := String.mk (slugifyL s.data)

/-- The straight apostrophe character. -/
def apos : Char := Char.ofNat 39

/-- The display name `Child's Pose` (straight apostrophe). -/
def childsPose : String :=
  String.mk ['C', 'h', 'i', 'l', 'd', apos, 's', ' ', 'P', 'o', 's', 'e']

example : slugify childsPose = "childs-pose" := by decide
example : slugify "" = "" := by decide
example : slugify "Seated Glute Stretch" = "seated-glute-stretch" := by decide
example : slugify "  --A  b--" = "a-b" := by decide

/-! ### Invariants of slugs (towards claim C2) -/

/-- A character a slug may contain: `[a-z0-9]` or a hyphen. -/
def goodC (c : Char) : Bool := isAlnumC c || c == '-'

/-- No two adjacent hyphens. -/
def noDoubleH : List Char → Bool
  | [] => true
  | [_] => true
  | a :: b :: rest => !(a == '-' && b == '-') && noDoubleH (b :: rest)

/-- The first character, if any, is not a hyphen. -/
def headNotH : List Char → Bool
  | [] => true
  | c :: _ => !(c == '-')

/-- The last character, if any, is not a hyphen. -/
def lastNotH : List Char → Bool
  | [] => true
  | [c] => !(c == '-')
  | _ :: rest => lastNotH rest

theorem goodC_not_apos {c : Char} (h : goodC c = true) : isAposC c = false := by
  rcases Bool.or_eq_true _ _ |>.mp h with h1 | h1
  · simp only [isAlnumC, Bool.or_eq_true, Bool.and_eq_true, decide_eq_true_eq] at h1
    simp only [isAposC, Bool.or_eq_false_iff, decide_eq_false_iff_not]
    omega
  · have : c = '-' := eq_of_beq h1
    subst this; decide

theorem goodC_toLower {c : Char} (h : goodC c = true) : c.toLower = c := by
  have hn : ¬(c.toNat ≥ 65 ∧ c.toNat ≤ 90) := by
    rcases Bool.or_eq_true _ _ |>.mp h with h1 | h1
    · simp only [isAlnumC, Bool.or_eq_true, Bool.and_eq_true, decide_eq_true_eq] at h1
      omega
    · have : c = '-' := eq_of_beq h1
      subst this; decide
  simp [Char.toLower, hn]

theorem goodC_hyphen_eq {c : Char} (hg : goodC c = true) (ha : isAlnumC c = false) :
    c = '-' := by
  rcases Bool.or_eq_true _ _ |>.mp hg with h1 | h1
  · rw [h1] at ha; cases ha
  · exact eq_of_beq h1

/-- Every character emitted by the run-replacement pass is alphanumeric or
a hyphen. -/
theorem replaceRunsAux_all_good : ∀ (b : Bool) (l : List Char),
    (replaceRunsAux b l).all goodC = true := by
  intro b l
  induction l generalizing b with
  | nil => rfl
  | cons c rest ih =>
    simp only [replaceRunsAux]
    by_cases hc : isAlnumC c = true
    · simp only [hc, if_true, List.all_cons, Bool.and_eq_true]
      exact ⟨by simp [goodC, hc], ih false⟩
    · simp only [Bool.not_eq_true] at hc
      simp only [hc, Bool.false_eq_true, if_false]
      cases b with
      | true => exact ih true
      | false =>
        simp only [if_false, List.all_cons, Bool.and_eq_true, Bool.false_eq_true]
        exact ⟨by decide, ih true⟩

/-- The hyphen-collapsing pass preserves any character predicate. -/
theorem collapseHAux_all (p : Char → Bool) : ∀ (b : Bool) (l : List Char),
    l.all p = true → (collapseHAux b l).all p = true := by
  intro b l
  induction l generalizing b with
  | nil => intro _; rfl
  | cons c rest ih =>
    intro h
    simp only [List.all_cons, Bool.and_eq_true] at h
    simp only [collapseHAux]
    by_cases hc : (c == '-') = true
    · simp only [hc, if_true]
      cases b with
      | true => exact ih true h.2
      | false =>
        simp only [if_false, List.all_cons, Bool.and_eq_true, Bool.false_eq_true]
        have : c = '-' := eq_of_beq hc
        exact ⟨this ▸ h.1, ih true h.2⟩
    · simp only [hc, Bool.false_eq_true, if_false, List.all_cons, Bool.and_eq_true]
      exact ⟨h.1, ih false h.2⟩

theorem all_dropWhile (p q : Char → Bool) (l : List Char) (h : l.all p = true) :
    (l.dropWhile q).all p = true := by
  induction l with
  | nil => rfl
  | cons c rest ih =>
    simp only [List.all_cons, Bool.and_eq_true] at h
    rw [List.dropWhile_cons]
    by_cases hq : q c = true
    · simp only [hq, if_true]; exact ih h.2
    · simp only [hq, Bool.false_eq_true, if_false, List.all_cons, Bool.and_eq_true]
      exact ⟨h.1, h.2⟩

theorem all_dropTrailingH (p : Char → Bool) : ∀ (l : List Char),
    l.all p = true → (dropTrailingH l).all p = true := by
  intro l
  induction l with
  | nil => intro _; rfl
  | cons c rest ih =>
    intro h
    simp only [List.all_cons, Bool.and_eq_true] at h
    simp only [dropTrailingH]
    cases hr : dropTrailingH rest with
    | nil =>
      by_cases hc : (c == '-') = true
      · simp [hc]
      · simp [hc, h.1]
    | cons d r2 =>
      have := ih h.2
      rw [hr] at this
      simp only [List.all_cons, Bool.and_eq_true] at this ⊢
      exact ⟨h.1, this⟩

theorem noDoubleH_cons_of_head (c : Char) {l : List Char}
    (h1 : headNotH l = true) (h2 : noDoubleH l = true) :
    noDoubleH (c :: l) = true := by
  cases l with
  | nil => rfl
  | cons b rest =>
    simp only [headNotH, Bool.not_eq_true'] at h1
    simp only [noDoubleH, Bool.and_eq_true, Bool.not_eq_true']
    exact ⟨by simp [h1], h2⟩

theorem noDoubleH_cons_of_ne {c : Char} (hc : (c == '-') = false) {l : List Char}
    (h2 : noDoubleH l = true) : noDoubleH (c :: l) = true := by
  cases l with
  | nil => rfl
  | cons b rest =>
    simp only [noDoubleH, Bool.and_eq_true, Bool.not_eq_true']
    exact ⟨by simp [hc], h2⟩

theorem noDoubleH_tail {c : Char} {l : List Char} (h : noDoubleH (c :: l) = true) :
    noDoubleH l = true := by
  cases l with
  | nil => rfl
  | cons b rest =>
    simp only [noDoubleH, Bool.and_eq_true] at h
    exact h.2

theorem headNotH_of_noDouble {l : List Char} (h : noDoubleH ('-' :: l) = true) :
    headNotH l = true := by
  cases l with
  | nil => rfl
  | cons b rest =>
    simp only [noDoubleH, Bool.and_eq_true, Bool.not_eq_true'] at h
    have := h.1
    simp only [Bool.and_eq_false_iff] at this
    rcases this with h1 | h1
    · exact absurd h1 (by decide)
    · simp [headNotH, h1]

/-- After the collapsing pass with the in-run flag set, the output cannot
start with a hyphen. -/
theorem collapseHAux_true_headNotH : ∀ (l : List Char),
    headNotH (collapseHAux true l) = true := by
  intro l
  induction l with
  | nil => rfl
  | cons c rest ih =>
    simp only [collapseHAux]
    by_cases hc : (c == '-') = true
    · simp only [hc, if_true]; exact ih
    · simp [hc, headNotH]

/-- The collapsing pass never emits two adjacent hyphens. -/
theorem collapseHAux_noDouble : ∀ (b : Bool) (l : List Char),
    noDoubleH (collapseHAux b l) = true := by
  intro b l
  induction l generalizing b with
  | nil => rfl
  | cons c rest ih =>
    simp only [collapseHAux]
    by_cases hc : (c == '-') = true
    · simp only [hc, if_true]
      cases b with
      | true => exact ih true
      | false =>
        simp only [if_false, Bool.false_eq_true]
        exact noDoubleH_cons_of_head _ (collapseHAux_true_headNotH rest) (ih true)
    · simp only [hc, Bool.false_eq_true, if_false]
      exact noDoubleH_cons_of_ne (Bool.not_eq_true _ |>.mp hc) (ih false)

theorem noDoubleH_dropWhile (q : Char → Bool) {l : List Char}
    (h : noDoubleH l = true) : noDoubleH (l.dropWhile q) = true := by
  induction l with
  | nil => rfl
  | cons c rest ih =>
    rw [List.dropWhile_cons]
    by_cases hq : q c = true
    · simp only [hq, if_true]; exact ih (noDoubleH_tail h)
    · simp only [hq, Bool.false_eq_true, if_false]; exact h

theorem noDoubleH_append_left : ∀ (l₁ l₂ : List Char),
    noDoubleH (l₁ ++ l₂) = true → noDoubleH l₁ = true := by
  intro l₁ l₂
  induction l₁ with
  | nil => intro _; rfl
  | cons a rest ih =>
    intro h
    cases rest with
    | nil => rfl
    | cons b rest2 =>
      simp only [List.cons_append, noDoubleH, Bool.and_eq_true] at h ⊢
      exact ⟨h.1, ih (by simpa using h.2)⟩

/-- `dropTrailingH l` is a prefix of `l`. -/
theorem dropTrailingH_prefix : ∀ (l : List Char), ∃ t, l = dropTrailingH l ++ t := by
  intro l
  induction l with
  | nil => exact ⟨[], rfl⟩
  | cons c rest ih =>
    obtain ⟨t, ht⟩ := ih
    simp only [dropTrailingH]
    cases hr : dropTrailingH rest with
    | nil =>
      by_cases hc : (c == '-') = true
      · exact ⟨c :: rest, by simp [hc]⟩
      · refine ⟨rest, ?_⟩
        simp [hc]
    | cons d r2 =>
      rw [hr] at ht
      exact ⟨t, by simp [ht]⟩

theorem noDoubleH_dropTrailingH {l : List Char} (h : noDoubleH l = true) :
    noDoubleH (dropTrailingH l) = true := by
  obtain ⟨t, ht⟩ := dropTrailingH_prefix l
  exact noDoubleH_append_left _ t (ht ▸ h)

theorem headNotH_dropWhileH (l : List Char) :
    headNotH (l.dropWhile (· == '-')) = true := by
  induction l with
  | nil => rfl
  | cons c rest ih =>
    rw [List.dropWhile_cons]
    by_cases hc : (c == '-') = true
    · simp only [hc, if_true]; exact ih
    · simp [hc, headNotH]

theorem headNotH_dropTrailingH {l : List Char} (h : headNotH l = true) :
    headNotH (dropTrailingH l) = true := by
  obtain ⟨t, ht⟩ := dropTrailingH_prefix l
  cases hr : dropTrailingH l with
  | nil => rfl
  | cons d r2 =>
    rw [hr] at ht
    rw [ht] at h
    simpa [headNotH] using h

theorem lastNotH_dropTrailingH : ∀ (l : List Char),
    lastNotH (dropTrailingH l) = true := by
  intro l
  induction l with
  | nil => rfl
  | cons c rest ih =>
    simp only [dropTrailingH]
    cases hr : dropTrailingH rest with
    | nil =>
      by_cases hc : (c == '-') = true
      · simp [hc, lastNotH]
      · simp [hc, lastNotH]
    | cons d r2 =>
      rw [hr] at ih
      simpa [lastNotH] using ih

/-! ### Each stage fixes an already-normalized slug -/

theorem lowerL_id {l : List Char} (h : l.all goodC = true) : lowerL l = l := by
  induction l with
  | nil => rfl
  | cons c rest ih =>
    simp only [List.all_cons, Bool.and_eq_true] at h
    simp only [lowerL, List.map_cons]
    rw [goodC_toLower h.1]
    exact congrArg _ (ih h.2)

theorem removeApos_id {l : List Char} (h : l.all goodC = true) : removeApos l = l := by
  induction l with
  | nil => rfl
  | cons c rest ih =>
    simp only [List.all_cons, Bool.and_eq_true] at h
    show List.filter _ (c :: rest) = _
    rw [List.filter_cons]
    simp only [goodC_not_apos h.1, Bool.not_false, if_true]
    exact congrArg _ (ih h.2)

theorem replaceRunsAux_id : ∀ (l : List Char) (b : Bool),
    l.all goodC = true → noDoubleH l = true →
    (b = true → headNotH l = true) → replaceRunsAux b l = l := by
  intro l
  induction l with
  | nil => intro b _ _ _; rfl
  | cons c rest ih =>
    intro b hg hd hb
    simp only [List.all_cons, Bool.and_eq_true] at hg
    simp only [replaceRunsAux]
    by_cases hc : isAlnumC c = true
    · simp only [hc, if_true]
      exact congrArg _ (ih false (hg.2) (noDoubleH_tail hd) (by simp))
    · have hceq : c = '-' := goodC_hyphen_eq hg.1 (Bool.not_eq_true _ |>.mp hc)
      cases b with
      | true =>
        exfalso
        have := hb rfl
        rw [hceq] at this
        simp [headNotH] at this
      | false =>
        simp only [hc, Bool.false_eq_true, if_false]
        subst hceq
        have hhead : headNotH rest = true := headNotH_of_noDouble hd
        exact congrArg _ (ih true hg.2 (noDoubleH_tail hd) (fun _ => hhead))

theorem collapseHAux_id : ∀ (l : List Char) (b : Bool),
    noDoubleH l = true → (b = true → headNotH l = true) →
    collapseHAux b l = l := by
  intro l
  induction l with
  | nil => intro b _ _; rfl
  | cons c rest ih =>
    intro b hd hb
    simp only [collapseHAux]
    by_cases hc : (c == '-') = true
    · have hceq : c = '-' := eq_of_beq hc
      cases b with
      | true =>
        exfalso
        have := hb rfl
        rw [hceq] at this
        simp [headNotH] at this
      | false =>
        simp only [hc, if_true, if_false, Bool.false_eq_true]
        subst hceq
        have hhead : headNotH rest = true := headNotH_of_noDouble hd
        exact congrArg _ (ih true (noDoubleH_tail hd) (fun _ => hhead))
    · simp only [hc, Bool.false_eq_true, if_false]
      exact congrArg _ (ih false (noDoubleH_tail hd) (by simp))

theorem dropWhileH_id {l : List Char} (h : headNotH l = true) :
    l.dropWhile (· == '-') = l := by
  cases l with
  | nil => rfl
  | cons c rest =>
    simp only [headNotH, Bool.not_eq_true'] at h
    simp [List.dropWhile_cons, h]

theorem dropTrailingH_id : ∀ (l : List Char), lastNotH l = true →
    dropTrailingH l = l := by
  intro l
  induction l with
  | nil => intro _; rfl
  | cons c rest ih =>
    intro h
    simp only [dropTrailingH]
    cases rest with
    | nil =>
      simp only [lastNotH, Bool.not_eq_true'] at h
      simp [dropTrailingH, h]
    | cons d r2 =>
      have h2 : lastNotH (d :: r2) = true := by simpa [lastNotH] using h
      rw [ih h2]

/-- The four invariants every `slugifyL` output satisfies. -/
theorem slugifyL_invariants (l : List Char) :
    (slugifyL l).all goodC = true ∧ noDoubleH (slugifyL l) = true ∧
    headNotH (slugifyL l) = true ∧ lastNotH (slugifyL l) = true := by
  have hall : (collapseH (replaceRuns (removeApos (lowerL l)))).all goodC = true :=
    collapseHAux_all goodC false _ (replaceRunsAux_all_good false _)
  have hnd : noDoubleH (collapseH (replaceRuns (removeApos (lowerL l)))) = true :=
    collapseHAux_noDouble false _
  refine ⟨?_, ?_, ?_, ?_⟩
  · exact all_dropTrailingH _ _ (all_dropWhile _ _ _ hall)
  · exact noDoubleH_dropTrailingH (noDoubleH_dropWhile _ hnd)
  · exact headNotH_dropTrailingH (headNotH_dropWhileH _)
  · exact lastNotH_dropTrailingH _

/-- A list satisfying the slug invariants is a fixed point of `slugifyL`. -/
theorem slugifyL_fixed {l : List Char}
    (hg : l.all goodC = true) (hd : noDoubleH l = true)
    (hh : headNotH l = true) (ht : lastNotH l = true) : slugifyL l = l := by
  unfold slugifyL replaceRuns collapseH stripHyphens
  rw [lowerL_id hg, removeApos_id hg,
    replaceRunsAux_id l false hg hd (by simp),
    collapseHAux_id l false hd (by simp),
    dropWhileH_id hh, dropTrailingH_id l ht]

/-- `slugifyL` is idempotent. -/
theorem slugifyL_idem (l : List Char) : slugifyL (slugifyL l) = slugifyL l := by
  obtain ⟨hg, hd, hh, ht⟩ := slugifyL_invariants l
  exact slugifyL_fixed hg hd hh ht

/-! ### Spec-side formulation of slug derivation (claim C1)

`slugify_spec` restates the spec's §4.1 algorithm: lowercase; remove
apostrophes entirely; replace every **maximal run** of characters outside
`[a-z0-9]` with a single hyphen (phrased here by consuming the whole run
at once); collapse repeated hyphens; strip leading/trailing hyphens. -/

/-- Replace every maximal run of characters outside `[a-z0-9]` with one
hyphen, consuming each run in a single step. -/
def replaceMaximalRuns (l : List Char) : List Char :=
  match l with
  | [] => []
  | c :: rest =>
    if isAlnumC c then c :: replaceMaximalRuns rest
    else '-' :: replaceMaximalRuns (rest.dropWhile (fun d => !isAlnumC d))
termination_by l.length
decreasing_by
  · simp only [List.length_cons]; omega
  · exact Nat.lt_succ_of_le ((List.dropWhile_sublist _).length_le)

/-- The spec's slug-derivation pipeline, word for word. -/
def slugify_spec (l : List Char) : List Char :=
  stripHyphens (collapseH (replaceMaximalRuns (removeApos (lowerL l))))

theorem replaceRunsAux_true_eq_dropWhile : ∀ (l : List Char),
    replaceRunsAux true l = replaceRunsAux false (l.dropWhile (fun d => !isAlnumC d)) := by
  intro l
  induction l with
  | nil => rfl
  | cons c rest ih =>
    rw [List.dropWhile_cons]
    by_cases hc : isAlnumC c = true
    · simp [replaceRunsAux, hc]
    · simp only [Bool.not_eq_true] at hc
      simp [replaceRunsAux, hc, ih]

/-- The source's single-character scan with an in-run flag computes the
spec's maximal-run replacement. -/
theorem replaceRuns_eq_replaceMaximalRuns : ∀ (l : List Char),
    replaceRuns l = replaceMaximalRuns l := by
  have H : ∀ (n : Nat) (l : List Char), l.length ≤ n →
      replaceRuns l = replaceMaximalRuns l := by
    intro n
    induction n with
    | zero =>
      intro l hl
      have : l = [] := List.eq_nil_of_length_eq_zero (Nat.le_zero.mp hl)
      subst this
      simp only [replaceMaximalRuns]
      rfl
    | succ n ih =>
      intro l hl
      cases l with
      | nil =>
        simp only [replaceMaximalRuns]
        rfl
      | cons c rest =>
        simp only [List.length_cons, Nat.succ_le_succ_iff] at hl
        by_cases hc : isAlnumC c = true
        · simp only [replaceRuns, replaceRunsAux, replaceMaximalRuns, hc, if_true]
          exact congrArg _ (ih rest hl)
        · simp only [Bool.not_eq_true] at hc
          simp only [replaceRuns, replaceRunsAux, replaceMaximalRuns, hc,
            Bool.false_eq_true, if_false]
          rw [replaceRunsAux_true_eq_dropWhile]
          exact congrArg _
            (ih _ (Nat.le_trans ((List.dropWhile_sublist _).length_le) hl))
  intro l
  exact H l.length l (Nat.le_refl _)

theorem slugifyL_eq_spec (l : List Char) : slugifyL l = slugify_spec l := by
  unfold slugifyL slugify_spec
  rw [replaceRuns_eq_replaceMaximalRuns]

theorem goodC_not_upper {c : Char} (h : goodC c = true) :
    ¬(65 ≤ c.toNat ∧ c.toNat ≤ 90) := by
  rcases Bool.or_eq_true _ _ |>.mp h with h1 | h1
  · simp only [isAlnumC, Bool.or_eq_true, Bool.and_eq_true, decide_eq_true_eq] at h1
    omega
  · have : c = '-' := eq_of_beq h1
    subst this; decide

/-- Claim C1: `slugify` computes exactly the spec's pipeline — lowercase,
remove straight and curly apostrophes without substitution, replace every
maximal run of characters outside `[a-z0-9]` with a single hyphen, collapse
repeated hyphens, strip leading/trailing hyphens; in particular
`slugify "Child's Pose" = "childs-pose"` and the empty string yields the
empty slug (no error: the function is total). -/
theorem C1_slugify_follows_spec :
    (∀ s : String, slugify s = String.mk (slugify_spec s.data)) ∧
    slugify childsPose = "childs-pose" ∧ slugify "" = "" := by
  refine ⟨fun s => ?_, by decide, by decide⟩
  unfold slugify
  rw [slugifyL_eq_spec]

/-- Claim C2: `slugify` is idempotent (`slugify (slugify x) = slugify x`),
and its output never contains an uppercase letter (every character is in
`[a-z0-9]` or a hyphen, so in particular no code point in `[65, 90]`), never
contains an apostrophe (straight or curly), and never starts or ends with a
hyphen. -/
theorem C2_slugify_idempotent_normalized (s : String) :
    slugify (slugify s) = slugify s ∧
    (∀ c ∈ (slugify s).data, goodC c = true ∧
      ¬(65 ≤ c.toNat ∧ c.toNat ≤ 90) ∧ isAposC c = false) ∧
    headNotH (slugify s).data = true ∧ lastNotH (slugify s).data = true := by
  obtain ⟨hg, hd, hh, ht⟩ := slugifyL_invariants s.data
  refine ⟨?_, ?_, hh, ht⟩
  · show String.mk (slugifyL (slugifyL s.data)) = String.mk (slugifyL s.data)
    rw [slugifyL_idem]
  · intro c hc
    have hgc : goodC c = true := List.all_eq_true.mp hg c hc
    exact ⟨hgc, goodC_not_upper hgc, goodC_not_apos hgc⟩

/-! ### Bilateral detection (`BILATERAL_PATTERNS` / `is_bilateral`)

Each of the six regular expressions in `BILATERAL_PATTERNS` is modelled by
an executable matcher: a predicate on (previous character, remaining text)
tested at every position of the lowercased description. -/

/-- `\b` before a word character: the previous character (if any) is not a
word character. -/
def boundaryBefore : Option Char → Bool
  | none => true
  | some c => !isWordC c

/-- `\b` after a word character: the next character (if any) is not a word
character. -/
def noWordAhead : List Char → Bool
  | [] => true
  | c :: _ => !isWordC c

/-- Consume an exact literal. -/
def eatLit : List Char → List Char → Option (List Char)
  | [], t => some t
  | _ :: _, [] => none
  | c :: ls, d :: ts => if d = c then eatLit ls ts else none

/-- Consume `\s+` (one or more whitespace characters, maximal munch —
equivalent to the regex here because every pattern continues with a word
character). -/
def eatWs1 : List Char → Option (List Char)
  | [] => none
  | c :: rest => if isSpaceC c then some (rest.dropWhile isSpaceC) else none

/-- `\bone\s+(leg|arm|knee|foot|side|hand)\b` at the current position. -/
def matchOneLimb (prev : Option Char) (t : List Char) : Bool :=
  boundaryBefore prev &&
    match eatLit "one".data t with
    | none => false
    | some t1 =>
      match eatWs1 t1 with
      | none => false
      | some t2 =>
        ["leg", "arm", "knee", "foot", "side", "hand"].any fun w =>
          match eatLit w.data t2 with
          | none => false
          | some t3 => noWordAhead t3

/-- `\bopposite\b` at the current position. -/
def matchOpposite (prev : Option Char) (t : List Char) : Bool :=
  boundaryBefore prev &&
    match eatLit "opposite".data t with
    | none => false
    | some t1 => noWordAhead t1

/-- `\bother\s+side\b` at the current position. -/
def matchOtherSide (prev : Option Char) (t : List Char) : Bool :=
  boundaryBefore prev &&
    match eatLit "other".data t with
    | none => false
    | some t1 =>
      match eatWs1 t1 with
      | none => false
      | some t2 =>
        match eatLit "side".data t2 with
        | none => false
        | some t3 => noWordAhead t3

/-- `\bswitch\s+sides?\b` at the current position (the optional `s` is
taken when the following character still yields a boundary; otherwise the
regex backtracks to the variant without it, which can only succeed if the
character after `side` is already a non-word character). -/
def matchSwitchSides (prev : Option Char) (t : List Char) : Bool :=
  boundaryBefore prev &&
    match eatLit "switch".data t with
    | none => false
    | some t1 =>
      match eatWs1 t1 with
      | none => false
      | some t2 =>
        match eatLit "side".data t2 with
        | none => false
        | some t3 =>
          match t3 with
          | c :: t4 => if c = 's' then noWordAhead t4 else !isWordC c
          | [] => true

/-- `\balternate\b` at the current position. -/
def matchAlternate (prev : Option Char) (t : List Char) : Bool :=
  boundaryBefore prev &&
    match eatLit "alternate".data t with
    | none => false
    | some t1 => noWordAhead t1

/-- `\beach\s+side\b` at the current position. -/
def matchEachSide (prev : Option Char) (t : List Char) : Bool :=
  boundaryBefore prev &&
    match eatLit "each".data t with
    | none => false
    | some t1 =>
      match eatWs1 t1 with
      | none => false
      | some t2 =>
        match eatLit "side".data t2 with
        | none => false
        | some t3 => noWordAhead t3

/-- `re.search`: try the positional matcher at every position. -/
def searchAux (p : Option Char → List Char → Bool) :
    Option Char → List Char → Bool
  | prev, [] => p prev []
  | prev, c :: rest => p prev (c :: rest) || searchAux p (some c) rest

def regexSearch (p : Option Char → List Char → Bool) (t : List Char) : Bool :=
  searchAux p none t

/-- The six matchers, in the order of `BILATERAL_PATTERNS`. -/
def bilateralMatchers : List (Option Char → List Char → Bool) :=
  [matchOneLimb, matchOpposite, matchOtherSide, matchSwitchSides,
   matchAlternate, matchEachSide]

/-- `is_bilateral(description)`: lowercase the description, return whether
any pattern matches (the source loop returns on the first match; the
boolean outcome is the same). -/
def is_bilateral (description : String) : Bool :=
  bilateralMatchers.any fun p => regexSearch p (lowerL description.data)

example : is_bilateral "Hold one leg up" = true := by decide
example : is_bilateral "Hold both arms overhead" = false := by decide
example : is_bilateral "not alternating" = false := by decide
example : is_bilateral "do not alternate sides" = true := by decide
example : is_bilateral "switch sides halfway" = true := by decide
example : is_bilateral "lean to each side" = true := by decide
example : is_bilateral "insider" = false := by decide

theorem toNat_ofNat_small {n : Nat} (h : n < 55296) : (Char.ofNat n).toNat = n := by
  have hv : n.isValidChar := Or.inl h
  rw [Char.ofNat, dif_pos hv]
  simp [Char.ofNatAux, Char.toNat, UInt32.toNat]

theorem isWordC_toLower (c : Char) : isWordC (Char.toLower c) = isWordC c := by
  simp only [Char.toLower]
  by_cases h : c.toNat ≥ 65 ∧ c.toNat ≤ 90
  · rw [if_pos h]
    have ht : (Char.ofNat (c.toNat + 32)).toNat = c.toNat + 32 :=
      toNat_ofNat_small (by omega)
    have l : isWordC (Char.ofNat (c.toNat + 32)) = true := by
      simp only [isWordC, ht, Bool.or_eq_true, Bool.and_eq_true, decide_eq_true_eq]
      omega
    have r : isWordC c = true := by
      simp only [isWordC, Bool.or_eq_true, Bool.and_eq_true, decide_eq_true_eq]
      omega
    rw [l, r]
  · rw [if_neg h]

theorem noWordAhead_lowerL (l : List Char) :
    noWordAhead (lowerL l) = noWordAhead l := by
  cases l with
  | nil => rfl
  | cons c rest => simp [noWordAhead, lowerL, isWordC_toLower]

/-- The character just before the suffix `v` in `u ++ v` (or `prev` when
`u` is empty). -/
def prevAfter (prev : Option Char) : List Char → Option Char
  | [] => prev
  | c :: rest => prevAfter (some c) rest

theorem searchAux_append (p : Option Char → List Char → Bool) :
    ∀ (u : List Char) (prev : Option Char) (v : List Char),
      searchAux p (prevAfter prev u) v = true →
      searchAux p prev (u ++ v) = true := by
  intro u
  induction u with
  | nil => intro prev v h; exact h
  | cons c rest ih =>
    intro prev v h
    show (p prev (c :: rest ++ v) || searchAux p (some c) (rest ++ v)) = true
    rw [Bool.or_eq_true]
    exact Or.inr (ih (some c) v h)

theorem eatLit_self_append : ∀ (l t : List Char), eatLit l (l ++ t) = some t := by
  intro l t
  induction l with
  | nil => rfl
  | cons c ls ih => simp [eatLit, ih]

theorem matchAlternate_at {post : List Char} (h : noWordAhead post = true) :
    matchAlternate (some ' ') ("alternate".data ++ post) = true := by
  unfold matchAlternate
  rw [eatLit_self_append]
  show (boundaryBefore (some ' ') && noWordAhead post) = true
  rw [h, Bool.and_true]
  decide

theorem prevAfter_append (prev : Option Char) : ∀ (u v : List Char),
    prevAfter prev (u ++ v) = prevAfter (prevAfter prev u) v := by
  intro u
  induction u generalizing prev with
  | nil => intro v; rfl
  | cons c rest ih => intro v; exact ih (some c) v

/-- Claim C7, counterexample: the description `"not alternating"` contains
the phrase `"not alternating"`, yet `is_bilateral` returns `false` — the
pattern `\balternate\b` does not match the word `alternating` (no pattern
matches this text at all). -/
theorem C7_counterexample :
    "not alternating".data <:+: "not alternating".data ∧
    is_bilateral "not alternating" = false :=
  ⟨⟨[], [], by simp⟩, by decide⟩

/-- Claim C7 as amended: negation is indeed not handled, but the
triggering phrase is a full word match of one of the patterns — for every
description that contains `"not alternate"` followed by a non-word
character (or the end of the string), `is_bilateral` returns `true`
despite the negation.  (`"not alternating"` itself is not flagged, because
`\balternate\b` does not match inside `alternating`.) -/
theorem C7_amended (pre post : List Char) (h : noWordAhead post = true) :
    is_bilateral (String.mk (pre ++ "not alternate".data ++ post)) = true := by
  unfold is_bilateral
  rw [List.any_eq_true]
  refine ⟨matchAlternate, by simp [bilateralMatchers], ?_⟩
  unfold regexSearch
  have hsplit : lowerL (pre ++ "not alternate".data ++ post) =
      (lowerL pre ++ "not ".data) ++ ("alternate".data ++ lowerL post) := by
    show (pre ++ "not alternate".data ++ post).map Char.toLower = _
    simp only [List.map_append]
    have : "not alternate".data.map Char.toLower = "not ".data ++ "alternate".data := by
      decide
    rw [this]
    simp [lowerL, List.append_assoc]
  rw [hsplit]
  apply searchAux_append
  have hprev : prevAfter none (lowerL pre ++ "not ".data) = some ' ' := by
    rw [prevAfter_append]
    rfl
  rw [hprev]
  show searchAux matchAlternate (some ' ') ("alternate".data ++ lowerL post) = true
  have hm : matchAlternate (some ' ') ("alternate".data ++ lowerL post) = true :=
    matchAlternate_at (by rw [noWordAhead_lowerL]; exact h)
  cases he : ("alternate".data ++ lowerL post) with
  | nil => simp at he
  | cons c rest =>
    rw [he] at hm
    show (matchAlternate (some ' ') (c :: rest) || _) = true
    rw [Bool.or_eq_true]
    exact Or.inl hm

/-- Witness for C7's amended statement at a concrete input. -/
theorem C7_amended_witness :
    noWordAhead (' ' :: "smoothly".data) = true ∧
    is_bilateral (String.mk ("do ".data ++ "not alternate".data ++
      (' ' :: "smoothly".data))) = true :=
  ⟨by decide, C7_amended "do ".data (' ' :: "smoothly".data) (by decide)⟩

/-- Claim C8: `is_bilateral "Hold one leg up"` is `true` (the pattern
`\bone\s+(leg|arm|knee|foot|side|hand)\b` matches) and
`is_bilateral "Hold both arms overhead"` is `false` (no pattern matches). -/
theorem C8_bilateral_examples :
    is_bilateral "Hold one leg up" = true ∧
    is_bilateral "Hold both arms overhead" = false :=
  ⟨by decide, by decide⟩

/-! ### Image resolution (`find_image`) -/

/-- The `region_alternatives` table of `find_image`
(`dict.get(region, [region])`). -/
def region_alternatives (region : String) : List String :=
  if region = "calves" then ["calf", "calves"]
  else if region = "glutes" then ["glute", "glutes"]
  else if region = "hamstrings" then ["hamstring", "hamstrings"]
  else if region = "quads" then ["quad", "quads"]
  else if region = "shoulders" then ["shoulder", "shoulders"]
  else if region = "hip_flexors" then ["hip flexor", "hip-flexor", "hip_flexors"]
  else [region]

/-- `re.sub(r"['’‘']s\b", "-s", ...)`: an apostrophe followed by `s` at a
word boundary is replaced by `-s` (left-to-right, non-overlapping). -/
def legacySub : List Char → List Char
  | [] => []
  | [c] => [c]
  | c :: d :: rest2 =>
    if isAposC c && d = 's' && noWordAhead rest2 then '-' :: 's' :: legacySub rest2
    else c :: legacySub (d :: rest2)

/-- The legacy slug of `find_image`: instead of deleting apostrophes, a
possessive apostrophe-`s` becomes `-s`; then the same run replacement,
hyphen collapse and strip as `slugify`. -/
def legacySlug (name : String) : String :=
  String.mk (stripHyphens (collapseH (replaceRuns (legacySub (lowerL name.data)))))

/-- `slugs_to_try`: the canonical slug, plus the legacy slug when it
differs. -/
def slugs_to_try (name : String) : List String :=
  if legacySlug name ≠ slugify name then [slugify name, legacySlug name]
  else [slugify name]

/-- The candidate filenames tried by `find_image`'s nested loops, in loop
order: region aliases (outer) crossed with slug variants (inner), each as
`"{reg}-{s}.png"`. -/
def image_candidates (region name : String) : List String :=
  (region_alternatives region).flatMap fun reg =>
    (slugs_to_try name).map fun s => reg ++ "-" ++ s ++ ".png"

/-- `find_image(region, name)`: the first candidate that exists (paired
with the canonical slug), or `(None, None)`. -/
def find_image (imgExists : String → Bool) (region name : String) :
    Option String × Option String :=
  match (image_candidates region name).find? imgExists with
  | some c => (some c, some (slugify name))
  | none => (none, none)

example : legacySlug childsPose = "child-s-pose" := by decide
example : slugs_to_try childsPose = ["childs-pose", "child-s-pose"] := by decide
example : slugs_to_try "Neck Roll" = ["neck-roll"] := by decide

/-! ### Stretch definition parsing (`parse_stretch_file`) -/

/-- Remove a maximal trailing run of whitespace. -/
def dropTrailingWs : List Char → List Char
  | [] => []
  | c :: rest =>
    match dropTrailingWs rest with
    | [] => if isSpaceC c then [] else [c]
    | r => c :: r

/-- Python `str.strip()`: remove leading and trailing whitespace. -/
def trimL (l : List Char) : List Char :=
  dropTrailingWs (l.dropWhile isSpaceC)

/-- Python `str.split(sep)` for a non-empty separator `s1 :: srest`:
scan left to right for the leftmost occurrence of the separator, cut, and
continue after it.  `fuel` bounds the recursion (each step consumes at
least one character, so `length + 1` suffices). -/
def splitSepFuel (s1 : Char) (srest : List Char) :
    Nat → List Char → List Char → List (List Char)
  | 0, acc, l => [acc.reverse ++ l]
  | _ + 1, acc, [] => [acc.reverse]
  | fuel + 1, acc, c :: rest =>
    if c = s1 && srest.isPrefixOf rest then
      acc.reverse :: splitSepFuel s1 srest fuel [] (rest.drop srest.length)
    else splitSepFuel s1 srest fuel (c :: acc) rest

/-- Python `str.split(sep)` (non-empty separators only; both uses in the
scripts are `"\n"` and `"----"`). -/
def splitOnSep (sep : List Char) (l : List Char) : List (List Char) :=
  match sep with
  | [] => [l]
  | s1 :: srest => splitSepFuel s1 srest (l.length + 1) [] l

example : splitOnSep "----".data "ab----cd----".data =
    ["ab".data, "cd".data, []] := by decide
example : splitOnSep "----".data "-----".data = [[], ['-']] := by decide

/-- Python `slug.startswith(region)`. -/
def strStartsWith (s pre : String) : Bool := pre.data.isPrefixOf s.data

/-- One stretch record, as assembled by `parse_stretch_file` (the
underscore-prefixed internal fields of the Python dict are `imageSource`
and `slug`). -/
structure Stretch where
  id : String
  name : String
  descText : String
  bilateral : Bool
  image : Option String
  audioBegin : String
  imageSource : Option String
  slug : String
deriving Repr, DecidableEq

/-- Process one `----`-separated block: strip it; skip it when empty; skip
it (with a logged warning) when it has no colon; otherwise split on the
first colon into name and description and build the record. -/
def parseBlock (imgExists : String → Bool) (region : String)
    (block : List Char) : Option Stretch :=
  let b := trimL block
  if b.isEmpty then none
  else if !(b.contains ':') then none
  else
    let nameStr := String.mk (trimL (b.takeWhile (fun c => !(c == ':'))))
    let descStr := String.mk (trimL (b.dropWhile (fun c => !(c == ':'))).tail)
    let slugStr := slugify nameStr
    let imageSource := (find_image imgExists region nameStr).1
    some {
      id := if strStartsWith slugStr region then slugStr
            else region ++ "-" ++ slugStr
      name := nameStr
      descText := descStr
      bilateral := is_bilateral descStr
      image := if imageSource.isSome then some (region ++ "/" ++ slugStr ++ ".png")
               else none
      audioBegin := region ++ "/" ++ slugStr ++ "-begin.wav"
      imageSource := imageSource
      slug := slugStr }

/-- The blocks of a stretch definition file: strip the content, split into
lines, discard the header line, re-join and split on `"----"`. -/
def stretchBlocks (content : String) : List (List Char) :=
  let lines := List.splitOn '\n' (trimL content.data)
  splitOnSep "----".data (List.intercalate ['\n'] lines.tail)

/-- `parse_stretch_file`: the region (the file stem, supplied by the
caller) and the records of the valid blocks. -/
def parse_stretch_file (imgExists : String → Bool) (region : String)
    (content : String) : String × List Stretch :=
  (region, (stretchBlocks content).filterMap (parseBlock imgExists region))

theorem parseBlock_none_of_no_colon (imgE : String → Bool) (region : String)
    {bad : List Char} (h : (trimL bad).contains ':' = false) :
    parseBlock imgE region bad = none := by
  simp only [parseBlock]
  by_cases he : (trimL bad).isEmpty = true
  · simp [he]
  · have h2 : (!(trimL bad).contains ':') = true := by rw [h]; rfl
    rw [if_neg he, if_pos h2]

/-- A stretch definition file with three blocks, the second of which is
malformed (no colon). -/
def exampleStretchFile : String :=
  "Neck Stretches\nChin Tuck: Tuck your chin gently toward your chest.\n----\nThis block has no separator\n----\nSide Tilt: Tilt your head to one side: hold it there."

set_option maxRecDepth 8192 in
/-- Claim C4: a malformed block (no colon) is skipped and contributes no
record, while parsing continues — removing such a block from the block
list leaves the parse result unchanged; and on a concrete file with one
malformed block among three blocks, exactly the records of the two valid
blocks are returned (each split into name and description on the *first*
colon — note the second description retains its own colon), with no
exception possible (`parse_stretch_file` is a total function). -/
theorem C4_malformed_block_skipped :
    (∀ (imgE : String → Bool) (region : String) (bs1 bs2 : List (List Char))
        (bad : List Char), (trimL bad).contains ':' = false →
        (bs1 ++ bad :: bs2).filterMap (parseBlock imgE region) =
        (bs1 ++ bs2).filterMap (parseBlock imgE region)) ∧
    (stretchBlocks exampleStretchFile).map (fun b => (trimL b).contains ':') =
      [true, false, true] ∧
    parse_stretch_file (fun _ => false) "neck" exampleStretchFile =
      ("neck",
        [{ id := "neck-chin-tuck", name := "Chin Tuck",
           descText := "Tuck your chin gently toward your chest.",
           bilateral := false, image := none,
           audioBegin := "neck/chin-tuck-begin.wav",
           imageSource := none, slug := "chin-tuck" },
         { id := "neck-side-tilt", name := "Side Tilt",
           descText := "Tilt your head to one side: hold it there.",
           bilateral := true, image := none,
           audioBegin := "neck/side-tilt-begin.wav",
           imageSource := none, slug := "side-tilt" }]) := by
  refine ⟨?_, by decide, by decide⟩
  intro imgE region bs1 bs2 bad h
  rw [List.filterMap_append, List.filterMap_append, List.filterMap_cons,
    parseBlock_none_of_no_colon imgE region h]

/-- Witness for C4's general skip property at concrete inputs. -/
theorem C4_witness :
    (trimL "just some text".data).contains ':' = false ∧
    (["A: B".data] ++ "just some text".data :: ["C: D".data]).filterMap
        (parseBlock (fun _ => false) "neck") =
      (["A: B".data] ++ ["C: D".data]).filterMap
        (parseBlock (fun _ => false) "neck") :=
  ⟨by decide, C4_malformed_block_skipped.1 _ _ _ _ _ (by decide)⟩

/-- Claim C5: `find_image` tries exactly the cross product of the region's
alias list with the slug variants (canonical slug first, then the legacy
slug when it differs — the legacy slug keeps a possessive apostrophe as
`-s`, e.g. `Child's Pose ↦ child-s-pose`), returning the first candidate
`"{alias}-{slug}.png"` that exists, or the no-match signal `(none, none)`;
`"Seated Glute Stretch"` in region `glutes` resolves
`glute-seated-glute-stretch.png` when present; and a record whose
`find_image` lookup found nothing carries no image path. -/
theorem C5_find_image_first_candidate :
    (∀ (imgE : String → Bool) (region name : String),
        find_image imgE region name =
          match (image_candidates region name).find? imgE with
          | some c => (some c, some (slugify name))
          | none => (none, none)) ∧
    legacySlug childsPose = "child-s-pose" ∧
    slugs_to_try childsPose = ["childs-pose", "child-s-pose"] ∧
    image_candidates "glutes" "Seated Glute Stretch" =
      ["glute-seated-glute-stretch.png", "glutes-seated-glute-stretch.png"] ∧
    (∀ imgE : String → Bool, imgE "glute-seated-glute-stretch.png" = true →
        find_image imgE "glutes" "Seated Glute Stretch" =
          (some "glute-seated-glute-stretch.png", some "seated-glute-stretch")) ∧
    (∀ (imgE : String → Bool) (region : String) (block : List Char)
        (s : Stretch), parseBlock imgE region block = some s →
        (find_image imgE region s.name).1 = none → s.image = none) := by
  refine ⟨fun _ _ _ => rfl, by decide, by decide, by decide, ?_, ?_⟩
  · intro imgE h
    unfold find_image
    have hc : image_candidates "glutes" "Seated Glute Stretch" =
        ["glute-seated-glute-stretch.png", "glutes-seated-glute-stretch.png"] := by
      decide
    rw [hc, List.find?_cons_of_pos _ h]
    decide
  · intro imgE region block s h hnone
    simp only [parseBlock] at h
    by_cases h1 : (trimL block).isEmpty = true
    · rw [if_pos h1] at h; cases h
    · rw [if_neg h1] at h
      by_cases h2 : (trimL block).contains ':' = true
      · have h2' : (!(trimL block).contains ':') = false := by rw [h2]; rfl
        rw [h2'] at h
        simp only [Bool.false_eq_true, if_false] at h
        cases Option.some.inj h
        simp only at hnone
        simp [hnone]
      · have h2' : (trimL block).contains ':' = false := by
          revert h2; cases (trimL block).contains ':' <;> simp
        have h2x : (!(trimL block).contains ':') = true := by rw [h2']; rfl
        rw [if_pos h2x] at h; cases h

/-- Witness for C5's conditional parts at concrete inputs. -/
theorem C5_witness :
    ((fun c => c == "glute-seated-glute-stretch.png")
        "glute-seated-glute-stretch.png" = true) ∧
    find_image (fun c => c == "glute-seated-glute-stretch.png") "glutes"
        "Seated Glute Stretch" =
      (some "glute-seated-glute-stretch.png", some "seated-glute-stretch") :=
  ⟨by decide, C5_find_image_first_candidate.2.2.2.2.1 _ (by decide)⟩

/-! ### Audio generation and the skip-if-exists policy
(`generate_tts_clip`, `generate_silence`, `generate_bell`) -/

/-- Abstract audio payloads.  The DSP content of the silence and bell
synthesis (float sample buffers) is abstracted to constructors recording
the synthesis parameters; speeds are in hundredths (the meditation script
uses `SPEED = 0.95`). -/
inductive AudioData where
  | tts (text voice : String) (speedCenti : Nat)
  | silence (samples : Nat)
  | bell
deriving Repr, DecidableEq

/-- The output directory tree: path to written audio file. -/
def FS : Type := String → Option AudioData

/-- `generate_tts_clip(text, output_path)` (meditation script: voice
`af_heart`, speed 0.95).  Returns the updated tree, the returned boolean,
and the number of synthesizer invocations.  An existing destination is
skipped before anything else happens; otherwise the synthesizer runs
(`ttsOk text` models whether the pipeline yielded samples — on failure the
error is logged and `False` returned with nothing written). -/
def generate_tts_clip (ttsOk : String → Bool) (fs : FS) (text path : String) :
    FS × Bool × Nat :=
  match fs path with
  | some _ => (fs, false, 0)
  | none =>
    if ttsOk text then
      ((fun p => if p = path then some (.tts text "af_heart" 95) else fs p),
        true, 1)
    else (fs, false, 1)

/-- `generate_silence(output_path, duration_seconds)`:
`int(24000 * duration)` zero samples, skipped if the file exists. -/
def generate_silence (fs : FS) (path : String) (durationSeconds : Nat) :
    FS × Bool × Nat :=
  match fs path with
  | some _ => (fs, false, 0)
  | none =>
    ((fun p => if p = path then some (.silence (24000 * durationSeconds)) else fs p),
      true, 1)

/-- `generate_bell(output_path)`: synthesized singing-bowl chime, skipped
if the file exists. -/
def generate_bell (fs : FS) (path : String) : FS × Bool × Nat :=
  match fs path with
  | some _ => (fs, false, 0)
  | none => ((fun p => if p = path then some .bell else fs p), true, 1)

/-! ### Meditation manifest (`build_manifest`) -/

structure FixedCue where
  atSeconds : Nat
  audioFile : String
deriving Repr, DecidableEq

structure InterjectionWindow where
  earliestSeconds : Nat
  latestSeconds : Nat
  audioPool : List String
deriving Repr, DecidableEq

structure Phase where
  phaseType : String
  durationSeconds : Nat
  fixedCues : List FixedCue
  interjectionWindows : List InterjectionWindow
deriving Repr, DecidableEq

structure MedVariant where
  durationMinutes : Nat
  phases : List Phase
deriving Repr, DecidableEq

structure MedSession where
  id : String
  name : String
  descText : String
  variants : List MedVariant
deriving Repr, DecidableEq

structure MedManifest where
  sessions : List MedSession
  sharedBell : String
  sharedSilence : String
deriving Repr, DecidableEq

/-- `build_manifest(session_id, clips)` from
`scripts/generate-tts-meditation.py`: a fixed template — hand-authored
durations, cue times and interjection windows for the 5-, 10- and
20-minute variants — whose audio paths are rooted at
`sessions/{session_id}`.  The `clips` argument is accepted but never
used, exactly as in the source. -/
def build_manifest (session_id : String)
    (clips : List (String × String)) : MedManifest :=
  let base := "sessions/" ++ session_id
  let r123 := [base ++ "/breathing-reminder-1.wav",
    base ++ "/breathing-reminder-2.wav", base ++ "/breathing-reminder-3.wav"]
  { sessions := [
      { id := session_id
        name := "Basic Breathing"
        descText := "A gentle breathing meditation to calm your mind."
        variants := [
          { durationMinutes := 5
            phases := [
              { phaseType := "intro", durationSeconds := 30
                fixedCues := [⟨0, base ++ "/intro-welcome.wav"⟩]
                interjectionWindows := [] },
              { phaseType := "breathing", durationSeconds := 240
                fixedCues := [⟨0, base ++ "/breathing-settle.wav"⟩,
                  ⟨20, base ++ "/breathing-rhythm.wav"⟩]
                interjectionWindows := [
                  ⟨80, 120, r123⟩,
                  ⟨180, 220, [base ++ "/breathing-deepen.wav"]⟩] },
              { phaseType := "closing", durationSeconds := 30
                fixedCues := [⟨0, base ++ "/closing-transition.wav"⟩,
                  ⟨15, base ++ "/closing-gratitude.wav"⟩]
                interjectionWindows := [] }] },
          { durationMinutes := 10
            phases := [
              { phaseType := "intro", durationSeconds := 60
                fixedCues := [⟨0, base ++ "/intro-welcome.wav"⟩,
                  ⟨30, base ++ "/intro-posture.wav"⟩]
                interjectionWindows := [] },
              { phaseType := "breathing", durationSeconds := 480
                fixedCues := [⟨0, base ++ "/breathing-settle.wav"⟩,
                  ⟨25, base ++ "/breathing-rhythm.wav"⟩]
                interjectionWindows := [
                  ⟨60, 90, r123⟩, ⟨140, 180, r123⟩,
                  ⟨220, 260, [base ++ "/breathing-midpoint.wav"]⟩,
                  ⟨320, 380, r123⟩,
                  ⟨420, 460, [base ++ "/breathing-deepen.wav"]⟩] },
              { phaseType := "closing", durationSeconds := 60
                fixedCues := [⟨0, base ++ "/closing-transition.wav"⟩,
                  ⟨20, base ++ "/closing-awakening.wav"⟩,
                  ⟨40, base ++ "/closing-gratitude.wav"⟩]
                interjectionWindows := [] }] },
          { durationMinutes := 20
            phases := [
              { phaseType := "intro", durationSeconds := 60
                fixedCues := [⟨0, base ++ "/intro-welcome.wav"⟩,
                  ⟨30, base ++ "/intro-posture.wav"⟩]
                interjectionWindows := [] },
              { phaseType := "breathing", durationSeconds := 1080
                fixedCues := [⟨0, base ++ "/breathing-settle.wav"⟩,
                  ⟨30, base ++ "/breathing-rhythm.wav"⟩]
                interjectionWindows := [
                  ⟨90, 130, r123⟩, ⟨200, 260, r123⟩,
                  ⟨320, 380, [base ++ "/breathing-midpoint.wav"]⟩,
                  ⟨460, 540, r123⟩,
                  ⟨620, 700, [base ++ "/breathing-deepen.wav"]⟩,
                  ⟨780, 860, r123⟩, ⟨920, 1000, r123⟩,
                  ⟨1020, 1060, [base ++ "/breathing-deepen.wav"]⟩] },
              { phaseType := "closing", durationSeconds := 60
                fixedCues := [⟨0, base ++ "/closing-transition.wav"⟩,
                  ⟨20, base ++ "/closing-awakening.wav"⟩,
                  ⟨40, base ++ "/closing-gratitude.wav"⟩]
                interjectionWindows := [] }] }] }]
    sharedBell := "shared/bell.wav"
    sharedSilence := "shared/silence-1s.wav" }

/-! ### Meditation main loop -/

/-- The clip jobs of one parsed session: narration text paired with its
output path `sessions/{session_id}/{clip_id}.wav`. -/
def sessionClipJobs (sessionId : String) (clips : List (String × String)) :
    List (String × String) :=
  clips.map fun cl => (cl.2, "sessions/" ++ sessionId ++ "/" ++ cl.1 ++ ".wav")

/-- Generate every narration clip in order, accumulating the number of
synthesizer invocations. -/
def generateClips (ttsOk : String → Bool) :
    FS × Nat → List (String × String) → FS × Nat
  | acc, [] => acc
  | (fs, n), job :: rest =>
    let r := generate_tts_clip ttsOk fs job.1 job.2
    generateClips ttsOk (r.1, n + r.2.2) rest

/-- The manifest `main` writes: `build_manifest` applied to the *first*
parsed session's id and clips (`list(all_clips.keys())[0]`); `none` when
no script files were found (main returns early). -/
def firstSessionManifest
    (allClips : List (String × List (String × String))) : Option MedManifest :=
  match allClips with
  | [] => none
  | (sid, clips) :: _ => some (build_manifest sid clips)

/-- `main()` of the meditation generator, after parsing: generate the
shared bell and silence, then every session's clips, then build the
manifest from the first session.  Returns the manifest (`none` when there
are no parsed files), the final output tree, and the total number of
synthesis calls. -/
def medMain (ttsOk : String → Bool) (fs : FS)
    (allClips : List (String × List (String × String))) :
    Option MedManifest × FS × Nat :=
  match allClips with
  | [] => (none, fs, 0)
  | (sid0, clips0) :: rest =>
    let r1 := generate_bell fs "shared/bell.wav"
    let r2 := generate_silence r1.1 "shared/silence-1s.wav" 1
    let r3 := generateClips ttsOk (r2.1, 0)
      (((sid0, clips0) :: rest).flatMap fun sc => sessionClipJobs sc.1 sc.2)
    (some (build_manifest sid0 clips0), r3.1, r1.2.2 + (r2.2.2 + r3.2))

/-- Every output path a meditation run writes to. -/
def medOutputPaths
    (allClips : List (String × List (String × String))) : List String :=
  "shared/bell.wav" :: "shared/silence-1s.wav" ::
    (allClips.flatMap fun sc => (sessionClipJobs sc.1 sc.2).map Prod.snd)

theorem generate_tts_clip_skip (ttsOk : String → Bool) (fs : FS)
    (text path : String) (h : (fs path).isSome = true) :
    generate_tts_clip ttsOk fs text path = (fs, false, 0) := by
  unfold generate_tts_clip
  cases hfs : fs path with
  | none => rw [hfs] at h; cases h
  | some a => rfl

theorem generate_silence_skip (fs : FS) (path : String) (d : Nat)
    (h : (fs path).isSome = true) :
    generate_silence fs path d = (fs, false, 0) := by
  unfold generate_silence
  cases hfs : fs path with
  | none => rw [hfs] at h; cases h
  | some a => rfl

theorem generate_bell_skip (fs : FS) (path : String)
    (h : (fs path).isSome = true) :
    generate_bell fs path = (fs, false, 0) := by
  unfold generate_bell
  cases hfs : fs path with
  | none => rw [hfs] at h; cases h
  | some a => rfl

theorem generateClips_all_present (ttsOk : String → Bool) :
    ∀ (jobs : List (String × String)) (fs : FS) (n : Nat),
      (∀ j ∈ jobs, (fs j.2).isSome = true) →
      generateClips ttsOk (fs, n) jobs = (fs, n) := by
  intro jobs
  induction jobs with
  | nil => intro fs n _; rfl
  | cons j rest ih =>
    intro fs n h
    have hj : (fs j.2).isSome = true := h j (List.mem_cons_self _ _)
    show generateClips ttsOk
      ((generate_tts_clip ttsOk fs j.1 j.2).1, n + (generate_tts_clip ttsOk fs j.1 j.2).2.2) rest = (fs, n)
    rw [generate_tts_clip_skip ttsOk fs j.1 j.2 hj]
    exact ih fs n (fun x hx => h x (List.mem_cons_of_mem _ hx))

theorem medMain_all_present (ttsOk : String → Bool) (fs : FS)
    (allClips : List (String × List (String × String)))
    (h : ∀ p ∈ medOutputPaths allClips, (fs p).isSome = true) :
    medMain ttsOk fs allClips = (firstSessionManifest allClips, fs, 0) := by
  cases allClips with
  | nil => rfl
  | cons sc rest =>
    obtain ⟨sid0, clips0⟩ := sc
    have hbell : (fs "shared/bell.wav").isSome = true :=
      h _ (by simp [medOutputPaths])
    have hsil : (fs "shared/silence-1s.wav").isSome = true :=
      h _ (by simp [medOutputPaths])
    have hclips : ∀ j ∈ ((sid0, clips0) :: rest).flatMap
        (fun sc => sessionClipJobs sc.1 sc.2), (fs j.2).isSome = true := by
      intro j hj
      refine h j.2 ?_
      simp only [medOutputPaths, List.mem_cons]
      right; right
      rw [List.mem_flatMap]
      rw [List.mem_flatMap] at hj
      obtain ⟨sc, hsc, hj2⟩ := hj
      exact ⟨sc, hsc, List.mem_map_of_mem _ hj2⟩
    show (some (build_manifest sid0 clips0),
      (generateClips ttsOk ((generate_silence (generate_bell fs "shared/bell.wav").1
          "shared/silence-1s.wav" 1).1, 0)
        (((sid0, clips0) :: rest).flatMap fun sc => sessionClipJobs sc.1 sc.2)).1,
      _) = _
    rw [generate_bell_skip fs _ hbell]
    rw [generate_silence_skip fs _ 1 hsil]
    rw [generateClips_all_present ttsOk _ fs 0 hclips]
    rfl

/-- Claim C3: every audio generator checks the destination first — if the
file exists it performs no synthesis, returns the skip result `false`,
and leaves the output tree untouched; consequently a meditation run whose
output paths are all already present performs zero synthesis calls,
leaves the tree unchanged, and produces the same manifest as any run over
the same parsed input (`firstSessionManifest`, which depends only on the
parsed sessions, never on the output tree). -/
theorem C3_skip_existing :
    (∀ (ttsOk : String → Bool) (fs : FS) (text path : String),
        (fs path).isSome = true →
        generate_tts_clip ttsOk fs text path = (fs, false, 0)) ∧
    (∀ (fs : FS) (path : String) (d : Nat), (fs path).isSome = true →
        generate_silence fs path d = (fs, false, 0)) ∧
    (∀ (fs : FS) (path : String), (fs path).isSome = true →
        generate_bell fs path = (fs, false, 0)) ∧
    (∀ (ttsOk : String → Bool) (jobs : List (String × String)) (fs : FS)
        (n : Nat), (∀ j ∈ jobs, (fs j.2).isSome = true) →
        generateClips ttsOk (fs, n) jobs = (fs, n)) ∧
    (∀ (ttsOk : String → Bool) (fs : FS)
        (allClips : List (String × List (String × String))),
        (∀ p ∈ medOutputPaths allClips, (fs p).isSome = true) →
        medMain ttsOk fs allClips = (firstSessionManifest allClips, fs, 0)) :=
  ⟨generate_tts_clip_skip, generate_silence_skip, generate_bell_skip,
    generateClips_all_present, medMain_all_present⟩

/-- A concrete fully-populated output tree for one session with one clip. -/
def fsAllPresent : FS := fun p =>
  if p = "shared/bell.wav" then some .bell
  else if p = "shared/silence-1s.wav" then some (.silence 24000)
  else if p = "sessions/s/c1.wav" then some (.tts "Hello." "af_heart" 95)
  else none

/-- Witness for C3 at a concrete populated tree. -/
theorem C3_witness :
    (∀ p ∈ medOutputPaths [("s", [("c1", "Hello.")])],
        (fsAllPresent p).isSome = true) ∧
    medMain (fun _ => true) fsAllPresent [("s", [("c1", "Hello.")])] =
      (firstSessionManifest [("s", [("c1", "Hello.")])], fsAllPresent, 0) :=
  ⟨by decide, C3_skip_existing.2.2.2.2 _ _ _ (by decide)⟩

/-- Claim C6: in every manifest `build_manifest` produces, every phase of
every variant of every session has `durationSeconds > 0`, and every
interjection window satisfies
`earliestSeconds < latestSeconds ≤ durationSeconds` of its phase. -/
theorem C6_manifest_timing_invariants (sid : String)
    (clips : List (String × String)) :
    ((build_manifest sid clips).sessions.all fun s =>
      s.variants.all fun v =>
        v.phases.all fun p =>
          decide (0 < p.durationSeconds) &&
          p.interjectionWindows.all fun w =>
            decide (w.earliestSeconds < w.latestSeconds) &&
            decide (w.latestSeconds ≤ p.durationSeconds)) = true := rfl

/-- Claim C9: `build_manifest` ignores its `clips` argument entirely, so
two runs whose first parsed session id is equal produce identical
manifests even when the parsed clip sets (and the output trees, and the
synthesizer behaviour) differ. -/
theorem C9_manifest_ignores_clips :
    (∀ (sid : String) (clips clips' : List (String × String)),
        build_manifest sid clips = build_manifest sid clips') ∧
    (∀ (ttsOk ttsOk' : String → Bool) (fs fs' : FS)
        (allClips allClips' : List (String × List (String × String))),
        allClips.head?.map Prod.fst = allClips'.head?.map Prod.fst →
        (medMain ttsOk fs allClips).1 = (medMain ttsOk' fs' allClips').1) := by
  refine ⟨fun _ _ _ => rfl, ?_⟩
  intro ttsOk ttsOk' fs fs' allClips allClips' h
  cases allClips with
  | nil =>
    cases allClips' with
    | nil => rfl
    | cons sc' rest' => simp at h
  | cons sc rest =>
    cases allClips' with
    | nil => simp at h
    | cons sc' rest' =>
      obtain ⟨sid, clips⟩ := sc
      obtain ⟨sid', clips'⟩ := sc'
      simp only [List.head?_cons, Option.map_some] at h
      cases Option.some.inj h
      rfl

/-- Witness for C9 at concrete diverging inputs. -/
theorem C9_witness :
    (([("basic-breathing", [("intro-welcome", "Welcome.")])] :
        List (String × List (String × String))).head?.map Prod.fst =
      ([("basic-breathing", [])] :
        List (String × List (String × String))).head?.map Prod.fst) ∧
    (medMain (fun _ => true) (fun _ => none)
        [("basic-breathing", [("intro-welcome", "Welcome.")])]).1 =
      (medMain (fun _ => false) (fun _ => some .bell)
        [("basic-breathing", [])]).1 :=
  ⟨rfl, C9_manifest_ignores_clips.2 _ _ _ _ _ _ rfl⟩

/-! ### Icon generation (`scripts/generate-icon.py`) -/

/-- The fixed Xcode asset-catalog destination of the first image. -/
def xcodeIconPath : String :=
  "ios/BradOS/BradOS/Assets.xcassets/AppIcon.appiconset/AppIcon.png"

/-- The save loop of `generate_icon`: for each returned image (indexed
from `i`), decode it, write image 0 to the Xcode path, write every image
to `build/icons/brados-icon-{timestamp}-{i+1}.png`, and collect the saved
build paths. -/
def saveIcons (b64decode : String → String) (timestamp : String) :
    Nat → (String → Option String) → List String →
    (String → Option String) × List String
  | _, fs, [] => (fs, [])
  | i, fs, img :: rest =>
    let bytes := b64decode img
    let fs1 := if i = 0 then
        (fun p => if p = xcodeIconPath then some bytes else fs p)
      else fs
    let filename := "build/icons/brados-icon-" ++ timestamp ++ "-" ++
      toString (i + 1) ++ ".png"
    let fs2 := fun p => if p = filename then some bytes else fs1 p
    let r := saveIcons b64decode timestamp (i + 1) fs2 rest
    (r.1, filename :: r.2)

/-- `generate_icon(prompt, num_images)`: one call to the external
image-generation API (`api` is that call's outcome — a list of base64
payloads, or the exception it raised).  There is no `try`/`except` and no
retry around the call: an API error is returned unhandled (modelling the
exception propagating out of the function and aborting the script) with
the file tree untouched; on success the images are decoded and saved. -/
def generate_icon (b64decode : String → String) (timestamp : String)
    (api : Except String (List String)) (fs : String → Option String) :
    Except String (List String) × (String → Option String) :=
  match api with
  | .error e => (.error e, fs)
  | .ok images =>
    let r := saveIcons b64decode timestamp 0 fs images
    (.ok r.2, r.1)

/-- Claim C10: any exception raised by the external image-generation call
is not handled by `generate_icon`: the error propagates unchanged (no
retry — the API outcome is consulted exactly once — and no
partial-failure handling), and no file is written. -/
theorem C10_icon_error_propagates (b64decode : String → String)
    (timestamp e : String) (fs : String → Option String) :
    generate_icon b64decode timestamp (.error e) fs = (.error e, fs) := rfl

end Lifting
